import Mathlib

/-!
Verification of the query-execution pipeline of the codeagent repository.

The backend services are embedded from the Python sources in
`src/overview.md` (workspace service, session state service, upload route,
agent orchestrator); the consuming side is embedded from
`src/frontend/src/api/query.ts` (`streamQuery`).  File names and payloads
are modelled as `List Char`; machine ints do not occur.
-/

deriving instance DecidableEq for Except

namespace CodeAgent

/- =================================================================
   SessionStateService (app/services/session_state_service.py):
   Redis busy-lock with TTL.  The Redis store is a map from key to the
   absolute expiry time of the key; `client.set(key, "1", nx=True, ex=ttl)`
   is an atomic set-if-absent that also fails on a present but expired key.
   ================================================================= -/

def Store : Type := String → Option Nat

/-- A key is held at time `now` when it is present and unexpired. -/
def held (st : Store) (k : String) (now : Nat) : Bool :=
  match st k with
  | some e => decide (now < e)
  | none => false

/-- Redis `SET key v NX EX ttl`: set if absent, with expiry; returns
whether the set happened together with the updated store. -/
def setIfAbsent (st : Store) (k : String) (now ttl : Nat) : Bool × Store :=
  if held st k now then (false, st)
  else (true, fun k' => if k' = k then some (now + ttl) else st k')

/-- Redis `DEL key`. -/
def delKey (st : Store) (k : String) : Store :=
  fun k' => if k' = k then none else st k'

def LOCK_TTL : Nat := 300

def busyKey (sid : String) : String := "session:busy:" ++ sid

/-- `SessionStateService.acquire_lock`. -/
def acquire_lock (st : Store) (sid : String) (now : Nat) : Bool × Store :=
  setIfAbsent st (busyKey sid) now LOCK_TTL

/-- `SessionStateService.release_lock` (`cache.delete`). -/
def release_lock (st : Store) (sid : String) : Store :=
  delKey st (busyKey sid)

/-- `SessionStateService.is_busy` (`cache.exists`, TTL-aware). -/
def is_busy (st : Store) (sid : String) (now : Nat) : Bool :=
  held st (busyKey sid) now

/- =================================================================
   File-type inference.
   `get_file_type` is from app/api/routes/upload.py:
     ext = filename.rsplit(".", 1)[-1].lower() if "." in filename else "unknown"
   `captureFileType` is the inline expression in
   `AgentOrchestrator._capture_new_artifacts`:
     file_name.rsplit(".", 1)[-1] if "." in file_name else "unknown"
   (note: no `.lower()` there).
   ================================================================= -/

/-- `s.rsplit(".", 1)[-1]`: everything after the last dot (the whole
string when there is no dot). -/
def afterLastDot (s : List Char) : List Char :=
  (s.reverse.takeWhile (fun c => !(c = '.'))).reverse

/-- ASCII lowercasing of one character, modelling `str.lower` on the
ASCII extensions the system handles. -/
def asciiLower (c : Char) : Char :=
  if 65 ≤ c.toNat ∧ c.toNat ≤ 90 then Char.ofNat (c.toNat + 32) else c

/-- `get_file_type` from the upload route. -/
def get_file_type (s : List Char) : List Char :=
  if '.' ∈ s then (afterLastDot s).map asciiLower else "unknown".toList

/-- The file-type expression in `_capture_new_artifacts` (no lowercasing). -/
def captureFileType (s : List Char) : List Char :=
  if '.' ∈ s then afterLastDot s else "unknown".toList

/-- `name.split("/")[-1]`. -/
def baseName (s : List Char) : List Char :=
  (s.reverse.takeWhile (fun c => !(c = '/'))).reverse

/- =================================================================
   WorkspaceService (app/services/workspace_service.py).
   ================================================================= -/

structure FileInfo where
  name : List Char
  size : Nat
  deriving DecidableEq

def namesOf (fs : List FileInfo) : List (List Char) := fs.map (·.name)

/-- The body of `WorkspaceService.delete_workspace`: iterate over the
listing, deleting each object.  `fails` is the set of object keys whose
`storage.delete` raises a `StorageError`; an exception propagates out of
the `for` loop at once.  Returns the outcome together with the keys whose
deletion was actually attempted. -/
def deleteLoop (fails : List (List Char)) : List FileInfo → Except (List Char) Unit × List (List Char)
  | [] => (.ok (), [])
  | f :: fs =>
    if f.name ∈ fails then (.error f.name, [f.name])
    else
      let r := deleteLoop fails fs
      (r.1, f.name :: r.2)

/-- `WorkspaceService.delete_workspace`: on success the function returns
`len(files)`, the length of the listing. -/
def delete_workspace (files : List FileInfo) (fails : List (List Char)) :
    Except (List Char) Nat × List (List Char) :=
  let r := deleteLoop fails files
  (match r.1 with
   | .ok _ => .ok files.length
   | .error e => .error e, r.2)

/- =================================================================
   Artifact diffing (AgentOrchestrator._capture_new_artifacts):
     original_names = {f["name"] for f in original_files}
     ... for file_info in current_files:
           if file_info["name"] not in original_names: ...
   ================================================================= -/

def diffNew (before after : List FileInfo) : List FileInfo :=
  after.filter (fun f => decide (¬ f.name ∈ namesOf before))

/- ======================= claim C3 ======================= -/

/-- Claim C3: `acquire_lock` is a set-if-absent with TTL returning true
iff the busy key was absent (or expired); a second acquire while the
first is unreleased and unexpired returns false; after `release_lock` a
subsequent acquire returns true; release is an idempotent total no-op;
a failed acquire leaves the store untouched and a successful one touches
only the busy key, setting its expiry to `now + LOCK_TTL`. -/
theorem lock_service_contract (st : Store) (sid : String) (t0 t1 : Nat)
    (hfree : is_busy st sid t0 = false)
    (hexp : t1 < t0 + LOCK_TTL) :
    (∀ (s2 : Store) (t : Nat), (acquire_lock s2 sid t).1 = !(is_busy s2 sid t)) ∧
    (acquire_lock st sid t0).1 = true ∧
    (acquire_lock (acquire_lock st sid t0).2 sid t1).1 = false ∧
    (acquire_lock (release_lock (acquire_lock st sid t0).2 sid) sid t1).1 = true ∧
    (∀ s2 : Store, release_lock (release_lock s2 sid) sid = release_lock s2 sid) ∧
    ((acquire_lock st sid t0).2 (busyKey sid) = some (t0 + LOCK_TTL)) ∧
    (∀ k, k ≠ busyKey sid → (acquire_lock st sid t0).2 k = st k) ∧
    (∀ (s2 : Store) (t : Nat), is_busy s2 sid t = true → acquire_lock s2 sid t = (false, s2)) := by
  have hiff : ∀ (s2 : Store) (t : Nat), (acquire_lock s2 sid t).1 = !(is_busy s2 sid t) := by
    intro s2 t
    unfold acquire_lock setIfAbsent is_busy
    by_cases h : held s2 (busyKey sid) t
    · simp [h]
    · simp [h]
  have hfree' : held st (busyKey sid) t0 = false := hfree
  have hacq : acquire_lock st sid t0 =
      (true, fun k' => if k' = busyKey sid then some (t0 + LOCK_TTL) else st k') := by
    unfold acquire_lock setIfAbsent
    simp [hfree']
  refine ⟨hiff, ?_, ?_, ?_, ?_, ?_, ?_, ?_⟩
  · rw [hacq]
  · rw [hacq]
    unfold acquire_lock setIfAbsent held
    simp [hexp]
  · rw [hacq]
    unfold acquire_lock release_lock setIfAbsent delKey held
    simp
  · intro s2
    funext k'
    unfold release_lock delKey
    by_cases h : k' = busyKey sid <;> simp [h]
  · rw [hacq]
    simp
  · intro k hk
    rw [hacq]
    simp [hk]
  · intro s2 t hb
    have hb' : held s2 (busyKey sid) t = true := hb
    unfold acquire_lock setIfAbsent
    simp [hb']

/- ======================= claim C8 ======================= -/

lemma takeWhile_append_all {p : Char → Bool} :
    ∀ {l1 l2 : List Char}, (∀ x ∈ l1, p x = true) →
      List.takeWhile p (l1 ++ l2) = l1 ++ List.takeWhile p l2 := by
  intro l1
  induction l1 with
  | nil => intro l2 _; simp
  | cons c cs ih =>
    intro l2 h
    have hc : p c = true := h c (by simp)
    simp only [List.cons_append, List.takeWhile_cons, hc]
    rw [ih (fun x hx => h x (by simp [hx]))]
    simp

lemma afterLastDot_append (stem ext : List Char) (h : '.' ∉ ext) :
    afterLastDot (stem ++ '.' :: ext) = ext := by
  unfold afterLastDot
  rw [List.reverse_append, List.reverse_cons]
  rw [List.append_assoc]
  rw [takeWhile_append_all (p := fun c => !(c = '.'))
    (fun x hx => by
      simp only [List.mem_reverse] at hx
      simp only [Bool.not_eq_true']
      exact decide_eq_false (fun he => h (he ▸ hx)))]
  simp

/-- Claim C8 counterexample: the diff-registration path is
case-sensitive (`PNG` vs `png` give different types), and the upload
path maps an unrecognized extension to the extension itself rather than
to "unknown". -/
theorem file_type_claim_counterexample :
    captureFileType ("report.PNG".toList) ≠ captureFileType ("report.png".toList) ∧
    get_file_type ("data.xyz".toList) ≠ "unknown".toList := by
  decide

/-- Claim C8 amended: `get_file_type` (upload path) lowercases the final
extension and hence is case-insensitive; `captureFileType` (diff path)
uses the raw extension, so the two agree only up to lowercasing; both
map a name without a dot — and only such a name — to "unknown", and
neither ever fails on an unrecognized extension (it becomes the
extension itself). -/
theorem file_type_inference (stem ext1 ext2 : List Char)
    (h1 : '.' ∉ ext1) (h2 : '.' ∉ ext2)
    (hsame : ext1.map asciiLower = ext2.map asciiLower) :
    get_file_type (stem ++ '.' :: ext1) = get_file_type (stem ++ '.' :: ext2) ∧
    get_file_type (stem ++ '.' :: ext1) = ext1.map asciiLower ∧
    captureFileType (stem ++ '.' :: ext1) = ext1 ∧
    (∀ f : List Char, get_file_type f = (captureFileType f).map asciiLower) ∧
    (∀ f : List Char, '.' ∉ f →
      get_file_type f = "unknown".toList ∧ captureFileType f = "unknown".toList) := by
  have hmem : ∀ s e : List Char, '.' ∈ s ++ '.' :: e := by
    intro s e
    simp
  have hget : ∀ (s e : List Char), '.' ∉ e →
      get_file_type (s ++ '.' :: e) = e.map asciiLower := by
    intro s e he
    unfold get_file_type
    rw [if_pos (hmem s e), afterLastDot_append s e he]
  refine ⟨?_, hget stem ext1 h1, ?_, ?_, ?_⟩
  · rw [hget stem ext1 h1, hget stem ext2 h2, hsame]
  · unfold captureFileType
    rw [if_pos (hmem stem ext1), afterLastDot_append stem ext1 h1]
  · intro f
    unfold get_file_type captureFileType
    by_cases h : '.' ∈ f
    · simp [h]
    · simp [h]
      decide
  · intro f hf
    unfold get_file_type captureFileType
    simp [hf]

/-- Witness for C8 (amended) at concrete names. -/
theorem file_type_inference_witness :
    get_file_type ("report".toList ++ '.' :: "PNG".toList) =
      get_file_type ("report".toList ++ '.' :: "png".toList) ∧
    captureFileType ("report".toList ++ '.' :: "PNG".toList) = "PNG".toList := by
  have h := file_type_inference ("report".toList) ("PNG".toList) ("png".toList)
    (by decide) (by decide) (by decide)
  exact ⟨h.1, h.2.2.1⟩

/- ======================= claim C6 ======================= -/

lemma deleteLoop_all_ok (fails : List (List Char)) :
    ∀ {files : List FileInfo}, (∀ f ∈ files, f.name ∉ fails) →
      deleteLoop fails files = (.ok (), namesOf files) := by
  intro files
  induction files with
  | nil => intro _; rfl
  | cons f fs ih =>
    intro h
    have hf : f.name ∉ fails := h f (by simp)
    unfold deleteLoop
    rw [if_neg hf, ih (fun g hg => h g (by simp [hg]))]
    rfl

lemma deleteLoop_err (fails : List (List Char)) (bad : FileInfo)
    (post : List FileInfo) (hbad : bad.name ∈ fails) :
    ∀ pre : List FileInfo, (∀ f ∈ pre, f.name ∉ fails) →
      deleteLoop fails (pre ++ bad :: post) =
        (.error bad.name, namesOf pre ++ [bad.name]) := by
  intro pre
  induction pre with
  | nil =>
    intro _
    simp only [List.nil_append]
    unfold deleteLoop
    rw [if_pos hbad]
    rfl
  | cons f fs ih =>
    intro h
    have hf : f.name ∉ fails := h f (by simp)
    simp only [List.cons_append]
    unfold deleteLoop
    rw [if_neg hf, ih (fun g hg => h g (by simp [hg]))]
    rfl

/-- Claim C6 counterexample: with two listed files where deleting the
first raises, the loop aborts before attempting the second file and no
removed-count (which would be 0) is returned. -/
theorem delete_workspace_claim_counterexample :
    (delete_workspace [⟨"sessions/s1/a.csv".toList, 3⟩, ⟨"sessions/s1/b.png".toList, 4⟩]
        ["sessions/s1/a.csv".toList]).1 ≠ .ok 0 ∧
    "sessions/s1/b.png".toList ∉
      (delete_workspace [⟨"sessions/s1/a.csv".toList, 3⟩, ⟨"sessions/s1/b.png".toList, 4⟩]
        ["sessions/s1/a.csv".toList]).2 := by
  decide

/-- Claim C6 amended: `delete_workspace` attempts deletions in listing
order; when every deletion succeeds it attempts every file and returns
the length of the listing, but the first failing deletion raises,
aborting the loop so that later files are never attempted and no count
is returned. -/
theorem delete_workspace_behavior (files : List FileInfo) (fails : List (List Char)) :
    ((∀ f ∈ files, f.name ∉ fails) →
      delete_workspace files fails = (.ok files.length, namesOf files)) ∧
    (∀ (pre : List FileInfo) (bad : FileInfo) (post : List FileInfo),
      files = pre ++ bad :: post → (∀ f ∈ pre, f.name ∉ fails) →
      bad.name ∈ fails →
      delete_workspace files fails = (.error bad.name, namesOf pre ++ [bad.name])) := by
  constructor
  · intro h
    unfold delete_workspace
    rw [deleteLoop_all_ok fails h]
  · intro pre bad post hsplit hpre hbad
    subst hsplit
    unfold delete_workspace
    rw [deleteLoop_err fails bad post hbad pre hpre]

/-- Witness for C6 (amended) on a concrete two-file listing with no
failures. -/
theorem delete_workspace_behavior_witness :
    delete_workspace [⟨"sessions/s1/a.csv".toList, 3⟩, ⟨"sessions/s1/b.png".toList, 4⟩] [] =
      (.ok 2, ["sessions/s1/a.csv".toList, "sessions/s1/b.png".toList]) := by
  exact (delete_workspace_behavior
    [⟨"sessions/s1/a.csv".toList, 3⟩, ⟨"sessions/s1/b.png".toList, 4⟩] []).1 (by decide)

/- ======================= claim C4 ======================= -/

/-- Claim C4: the diff step selects exactly the files of `after` whose
name is absent from `before`; the selected name set is invariant under
reordering of either listing; it is empty when the two listings have
equal name sets; a file whose name already existed (same-name
overwrite) is never selected. -/
theorem diffNew_spec (before after : List FileInfo) :
    (∀ f : FileInfo, f ∈ diffNew before after ↔ f ∈ after ∧ f.name ∉ namesOf before) ∧
    (∀ (before2 after2 : List FileInfo), before.Perm before2 → after.Perm after2 →
      (diffNew before after).Perm (diffNew before2 after2)) ∧
    (((∀ n ∈ namesOf after, n ∈ namesOf before) ∧ (∀ n ∈ namesOf before, n ∈ namesOf after)) →
      diffNew before after = []) ∧
    (∀ f ∈ after, f.name ∈ namesOf before → f ∉ diffNew before after) := by
  have hmem : ∀ f : FileInfo, f ∈ diffNew before after ↔
      f ∈ after ∧ f.name ∉ namesOf before := by
    intro f
    unfold diffNew
    rw [List.mem_filter]
    simp
  refine ⟨hmem, ?_, ?_, ?_⟩
  · intro b2 a2 hb ha
    have hpred : ∀ f ∈ after, (decide (¬ f.name ∈ namesOf before) : Bool) =
        decide (¬ f.name ∈ namesOf b2) := by
      intro f _
      apply decide_eq_decide.mpr
      constructor
      · intro h hc
        exact h ((hb.map (·.name)).mem_iff.mpr hc)
      · intro h hc
        exact h ((hb.map (·.name)).mem_iff.mp hc)
    unfold diffNew
    rw [List.filter_congr hpred]
    exact ha.filter _
  · intro h
    unfold diffNew
    rw [List.filter_eq_nil_iff]
    intro f hf
    simp only [decide_not, Bool.not_eq_true', Bool.not_eq_false]
    apply decide_eq_true
    exact h.1 f.name (List.mem_map.mpr ⟨f, hf, rfl⟩)
  · intro f _ hname hcontra
    exact ((hmem f).mp hcontra).2 hname

/-- Witness for C4 at concrete listings: reordered equal name sets give
an empty diff, and a genuinely new file is selected. -/
theorem diffNew_spec_witness :
    diffNew [⟨"a.csv".toList, 1⟩, ⟨"b.png".toList, 2⟩]
      [⟨"b.png".toList, 9⟩, ⟨"a.csv".toList, 1⟩] = [] ∧
    (⟨"c.txt".toList, 5⟩ : FileInfo) ∈
      diffNew [⟨"a.csv".toList, 1⟩] [⟨"a.csv".toList, 1⟩, ⟨"c.txt".toList, 5⟩] := by
  constructor
  · exact (diffNew_spec [⟨"a.csv".toList, 1⟩, ⟨"b.png".toList, 2⟩]
      [⟨"b.png".toList, 9⟩, ⟨"a.csv".toList, 1⟩]).2.2.1 (by decide)
  · exact ((diffNew_spec [⟨"a.csv".toList, 1⟩]
      [⟨"a.csv".toList, 1⟩, ⟨"c.txt".toList, 5⟩]).1 _).mpr (by decide)

/- =================================================================
   AgentOrchestrator (app/services/agent_orchestrator.py).

   `process_query` is an async generator.  We embed one full run of the
   generator as the list of its observable steps, each step being either
   a yielded `StreamEvent` or a side effect on a collaborator.  The
   agent, the database and the object store are abstracted by the
   environment: the statuses the agent yields, whether it raises after
   them, the two workspace listings, which artifact registrations raise,
   and whether message persistence raises.
   ================================================================= -/

inductive AgentStatusType
  | started
  | thinking
  | generatingCode
  | executing
  | iterationComplete
  | completed
  | error
  deriving DecidableEq

structure AgentStatus where
  statusType : AgentStatusType
  message : String
  data : Option String := none
  iteration : Option Nat := none
  totalIterations : Option Nat := none
  deriving DecidableEq

/-- The wire `type` field of a StreamEvent
(`"status" | "completed" | "error" | "cancelled"`). -/
inductive EvKind
  | status
  | completed
  | error
  | cancelled
  deriving DecidableEq

inductive StreamEventType
  | started
  | thinking
  | generatingCode
  | executing
  | iterationComplete
  | completed
  | error
  | cancelled
  deriving DecidableEq

structure Artifact where
  fileName : List Char
  fileType : List Char
  sizeBytes : Nat
  objectKey : List Char
  deriving DecidableEq

inductive EventData
  | agentData (d : String)
  | resultData (result : Option String) (artifactKeys : List (List Char))
  deriving DecidableEq

structure StreamEvent where
  kind : EvKind
  eventType : StreamEventType
  agentName : String
  message : String
  data : Option EventData := none
  iteration : Option Nat := none
  totalIterations : Option Nat := none
  deriving DecidableEq

/-- The `event_type_map` dictionary in `_status_to_event` (total on the
statuses the agent produces, so the `.get` default is never used). -/
def etMap : AgentStatusType → StreamEventType
  | .started => .started
  | .thinking => .thinking
  | .generatingCode => .generatingCode
  | .executing => .executing
  | .iterationComplete => .iterationComplete
  | .completed => .completed
  | .error => .error

/-- `AgentOrchestrator._status_to_event`. -/
def status_to_event (s : AgentStatus) : StreamEvent :=
  { kind := if s.statusType = .completed then .completed else .status
    eventType := etMap s.statusType
    agentName := "data_analysis"
    message := s.message
    data := s.data.map EventData.agentData
    iteration := s.iteration
    totalIterations := s.totalIterations }

/-- A terminal event is one whose wire `type` is
`completed`, `error` or `cancelled`. -/
def isTerminal (e : StreamEvent) : Bool :=
  match e.kind with
  | .status => false
  | _ => true

def busyErrorEvent : StreamEvent :=
  { kind := .error, eventType := .error, agentName := "orchestrator"
    message := "Session is currently busy. Please wait." }

def startedEvent : StreamEvent :=
  { kind := .status, eventType := .started, agentName := "data_analysis"
    message := "Processing your request..." }

def exceptErrorEvent (m : String) : StreamEvent :=
  { kind := .error, eventType := .error, agentName := "orchestrator"
    message := "Error: " ++ m }

def completedEvent (result : Option String) (keys : List (List Char)) : StreamEvent :=
  { kind := .completed, eventType := .completed, agentName := "data_analysis"
    message := "Analysis complete"
    data := some (.resultData result keys) }

inductive Effect
  | acquireFailed (sid : String)
  | acquireOk (sid : String)
  | listFiles
  | loadDataframes
  | register (objectKey : List Char)
  | persist (role : String)
  | release (sid : String)
  deriving DecidableEq

/-- One observable step of the generator. -/
inductive Item
  | yieldEv (e : StreamEvent)
  | eff (f : Effect)
  deriving DecidableEq

structure Env where
  store : Store
  sid : String
  now : Nat
  beforeFiles : List FileInfo
  agentStatuses : List AgentStatus
  agentExc : Option String := none
  afterFiles : List FileInfo
  failRegister : List (List Char) := []
  persistExc : Option String := none

/-- The registration loop of `_capture_new_artifacts`: one
`create_artifact` per new file, in listing order; a raising
registration propagates immediately. -/
def registerLoop (fails : List (List Char)) :
    List FileInfo → List Item × Except (List Char) (List Artifact)
  | [] => ([], .ok [])
  | f :: fs =>
    if f.name ∈ fails then ([Item.eff (.register f.name)], .error f.name)
    else
      let nm := baseName f.name
      let art : Artifact :=
        { fileName := nm, fileType := captureFileType nm
          sizeBytes := f.size, objectKey := f.name }
      let r := registerLoop fails fs
      (Item.eff (.register f.name) :: r.1, r.2.map (fun as => art :: as))

/-- `AgentOrchestrator._capture_new_artifacts`: list the workspace again
and register the diff against the snapshot. -/
def capture_new_artifacts (before after : List FileInfo) (fails : List (List Char)) :
    List Item × Except (List Char) (List Artifact) :=
  let r := registerLoop fails (diffNew before after)
  (Item.eff .listFiles :: r.1, r.2)

/-- `final_result`: the `data` of the last COMPLETED status relayed. -/
def finalResult (sts : List AgentStatus) : Option String :=
  match (sts.filter (fun s => decide (s.statusType = .completed))).getLast? with
  | some s => s.data
  | none => none

def relayItems (sts : List AgentStatus) : List Item :=
  sts.map (fun s => Item.yieldEv (status_to_event s))

/-- The `try:` body of `process_query` (after a successful acquire):
the steps performed, and the message of the exception reaching the
`except Exception` clause, if any. -/
def bodyItems (env : Env) : List Item × Option String :=
  let pre := [Item.yieldEv startedEvent, Item.eff .listFiles, Item.eff .loadDataframes]
  let rel := relayItems env.agentStatuses
  match env.agentExc with
  | some m => (pre ++ rel, some m)
  | none =>
    let cap := capture_new_artifacts env.beforeFiles env.afterFiles env.failRegister
    match cap.2 with
    | .error k => (pre ++ rel ++ cap.1, some ("register failed: " ++ String.mk k))
    | .ok arts =>
      match env.persistExc with
      | some m => (pre ++ rel ++ cap.1, some m)
      | none =>
        (pre ++ rel ++ cap.1 ++
          [Item.eff (.persist "user"), Item.eff (.persist "assistant"),
           Item.yieldEv (completedEvent (finalResult env.agentStatuses)
             (arts.map (·.objectKey)))], none)

/-- Everything `process_query` does before its `finally:` block: the
busy branch yields one error event and returns; otherwise the `try:`
body runs and the `except Exception` clause turns an escaped exception
into one error event. -/
def preFinallyItems (env : Env) : List Item :=
  if (acquire_lock env.store env.sid env.now).1 then
    let b := bodyItems env
    Item.eff (.acquireOk env.sid) :: b.1 ++
      (match b.2 with
       | some m => [Item.yieldEv (exceptErrorEvent m)]
       | none => [])
  else
    [Item.eff (.acquireFailed env.sid), Item.yieldEv busyErrorEvent]

/-- One full (uncancelled) run of `AgentOrchestrator.process_query`:
the `finally:` block releases the lock on every path that acquired it;
the busy branch returns before the `try` and never releases. -/
def process_query (env : Env) : List Item :=
  preFinallyItems env ++
    (if (acquire_lock env.store env.sid env.now).1
     then [Item.eff (.release env.sid)] else [])

def eventsOf (its : List Item) : List StreamEvent :=
  its.filterMap (fun it =>
    match it with
    | .yieldEv e => some e
    | .eff _ => none)

def effectsOf (its : List Item) : List Effect :=
  its.filterMap (fun it =>
    match it with
    | .yieldEv _ => none
    | .eff f => some f)

def events (env : Env) : List StreamEvent := eventsOf (process_query env)

def effects (env : Env) : List Effect := effectsOf (process_query env)

/-- The steps that run when the consumer closes the generator while it
is suspended at a yield: everything up to and including that yield,
nothing after it.  `k` is the number of events delivered before the
close; when the generator has at most `k` yields left the whole list
runs. -/
def truncAt : Nat → List Item → List Item
  | _, [] => []
  | 0, _ :: _ => []
  | k + 1, Item.eff f :: rest => Item.eff f :: truncAt (k + 1) rest
  | k + 1, Item.yieldEv e :: rest => Item.yieldEv e :: truncAt k rest

/-- External cancellation after `k` delivered events: closing an async
generator raises GeneratorExit at the suspended yield, which the
`except Exception` clause does not catch, and the `finally:` block
still runs.  Closing a never-started generator (`k = 0`) runs nothing. -/
def process_query_cancelled (env : Env) (k : Nat) : List Item :=
  if k = 0 then []
  else
    truncAt k (preFinallyItems env) ++
      (if (acquire_lock env.store env.sid env.now).1
       then [Item.eff (.release env.sid)] else [])

def terminalCount (evs : List StreamEvent) : Nat := evs.countP isTerminal

def completedStatusCount (sts : List AgentStatus) : Nat :=
  sts.countP (fun s => decide (s.statusType = .completed))

def releaseCount (fs : List Effect) (sid : String) : Nat :=
  fs.countP (fun f => decide (f = .release sid))

def lastIsTerminal (evs : List StreamEvent) : Bool :=
  match evs.getLast? with
  | some e => isTerminal e
  | none => false

def registerTrace (fs : List Effect) : List (List Char) :=
  fs.filterMap (fun f =>
    match f with
    | .register n => some n
    | _ => none)

/- ---------- structural lemmas about the generator model ---------- -/

lemma eventsOf_append (l1 l2 : List Item) :
    eventsOf (l1 ++ l2) = eventsOf l1 ++ eventsOf l2 := by
  unfold eventsOf
  exact List.filterMap_append l1 l2 _

lemma effectsOf_append (l1 l2 : List Item) :
    effectsOf (l1 ++ l2) = effectsOf l1 ++ effectsOf l2 := by
  unfold effectsOf
  exact List.filterMap_append l1 l2 _

lemma eventsOf_relay (sts : List AgentStatus) :
    eventsOf (relayItems sts) = sts.map status_to_event := by
  induction sts with
  | nil => rfl
  | cons s ss ih =>
    simp only [relayItems, List.map_cons, eventsOf, List.filterMap_cons] at ih ⊢
    rw [ih]

lemma effectsOf_relay (sts : List AgentStatus) :
    effectsOf (relayItems sts) = [] := by
  induction sts with
  | nil => rfl
  | cons s ss ih =>
    simp only [relayItems, List.map_cons, effectsOf, List.filterMap_cons] at ih ⊢
    exact ih

lemma eventsOf_registerLoop (fails : List (List Char)) :
    ∀ l : List FileInfo, eventsOf (registerLoop fails l).1 = [] := by
  intro l
  induction l with
  | nil => rfl
  | cons f fs ih =>
    unfold registerLoop
    by_cases h : f.name ∈ fails
    · simp [h, eventsOf]
    · simp only [h, if_neg, ite_false, eventsOf, List.filterMap_cons]
      exact ih

lemma registerLoop_all_ok (fails : List (List Char)) :
    ∀ l : List FileInfo, (∀ f ∈ l, f.name ∉ fails) →
      registerLoop fails l =
        (l.map (fun f => Item.eff (.register f.name)),
         .ok (l.map (fun f =>
           ({ fileName := baseName f.name, fileType := captureFileType (baseName f.name)
              sizeBytes := f.size, objectKey := f.name } : Artifact)))) := by
  intro l
  induction l with
  | nil => intro _; rfl
  | cons f fs ih =>
    intro h
    have hf : f.name ∉ fails := h f (by simp)
    unfold registerLoop
    rw [if_neg hf, ih (fun g hg => h g (by simp [hg]))]
    rfl

lemma registerLoop_err (fails : List (List Char)) (bad : FileInfo)
    (post : List FileInfo) (hbad : bad.name ∈ fails) :
    ∀ pre : List FileInfo, (∀ f ∈ pre, f.name ∉ fails) →
      registerLoop fails (pre ++ bad :: post) =
        (pre.map (fun f => Item.eff (.register f.name)) ++ [Item.eff (.register bad.name)],
         .error bad.name) := by
  intro pre
  induction pre with
  | nil =>
    intro _
    simp only [List.nil_append, List.map_nil]
    unfold registerLoop
    rw [if_pos hbad]
  | cons f fs ih =>
    intro h
    have hf : f.name ∉ fails := h f (by simp)
    simp only [List.cons_append, List.map_cons]
    unfold registerLoop
    rw [if_neg hf, ih (fun g hg => h g (by simp [hg]))]
    rfl

lemma isTerminal_status_to_event (s : AgentStatus) :
    isTerminal (status_to_event s) = decide (s.statusType = .completed) := by
  by_cases h : s.statusType = .completed
  · simp [status_to_event, isTerminal, h]
  · simp [status_to_event, isTerminal, h]

lemma terminalCount_relay (sts : List AgentStatus) :
    terminalCount (sts.map status_to_event) = completedStatusCount sts := by
  induction sts with
  | nil => rfl
  | cons s ss ih =>
    simp only [List.map_cons, terminalCount, completedStatusCount, List.countP_cons] at ih ⊢
    rw [ih, isTerminal_status_to_event]

lemma eventsOf_nil : eventsOf ([] : List Item) = [] := rfl

lemma eventsOf_cons_eff (f : Effect) (l : List Item) :
    eventsOf (Item.eff f :: l) = eventsOf l := rfl

lemma eventsOf_cons_yield (e : StreamEvent) (l : List Item) :
    eventsOf (Item.yieldEv e :: l) = e :: eventsOf l := rfl

lemma effectsOf_nil : effectsOf ([] : List Item) = [] := rfl

lemma effectsOf_cons_eff (f : Effect) (l : List Item) :
    effectsOf (Item.eff f :: l) = f :: effectsOf l := rfl

lemma effectsOf_cons_yield (e : StreamEvent) (l : List Item) :
    effectsOf (Item.yieldEv e :: l) = effectsOf l := rfl

lemma eventsOf_capture (before after : List FileInfo) (fails : List (List Char)) :
    eventsOf (capture_new_artifacts before after fails).1 = [] := by
  simp only [capture_new_artifacts]
  rw [eventsOf_cons_eff]
  exact eventsOf_registerLoop fails (diffNew before after)

/-- On the non-busy path a full `process_query` run yields the started
event, the relayed agent statuses, and one final orchestrator-emitted
terminal event (its completion event or the `except` clause's error
event). -/
lemma events_nonbusy (env : Env)
    (h : (acquire_lock env.store env.sid env.now).1 = true) :
    ∃ e : StreamEvent, isTerminal e = true ∧
      events env = startedEvent :: env.agentStatuses.map status_to_event ++ [e] := by
  unfold events process_query preFinallyItems
  rw [if_pos h, if_pos h]
  cases hax : env.agentExc with
  | some m =>
    refine ⟨exceptErrorEvent m, rfl, ?_⟩
    simp [bodyItems, hax, eventsOf_append, eventsOf_cons_eff, eventsOf_cons_yield,
      eventsOf_nil, eventsOf_relay]
  | none =>
    cases hcap : (capture_new_artifacts env.beforeFiles env.afterFiles env.failRegister).2 with
    | error k =>
      refine ⟨exceptErrorEvent ("register failed: " ++ String.mk k), rfl, ?_⟩
      simp [bodyItems, hax, hcap, eventsOf_append, eventsOf_cons_eff, eventsOf_cons_yield,
        eventsOf_nil, eventsOf_relay, eventsOf_capture]
    | ok arts =>
      cases hpx : env.persistExc with
      | some m =>
        refine ⟨exceptErrorEvent m, rfl, ?_⟩
        simp [bodyItems, hax, hcap, hpx, eventsOf_append, eventsOf_cons_eff,
          eventsOf_cons_yield, eventsOf_nil, eventsOf_relay, eventsOf_capture]
      | none =>
        refine ⟨completedEvent (finalResult env.agentStatuses) (arts.map (·.objectKey)),
          rfl, ?_⟩
        simp [bodyItems, hax, hcap, hpx, eventsOf_append, eventsOf_cons_eff,
          eventsOf_cons_yield, eventsOf_nil, eventsOf_relay, eventsOf_capture]

/- ======================= claim C1 ======================= -/

def envC1 : Env :=
  { store := fun _ => none, sid := "s1", now := 0
    beforeFiles := []
    agentStatuses := [⟨.completed, "done", some "42", some 1, some 5⟩]
    afterFiles := [] }

/-- Claim C1 counterexample: on a successful run in which the agent
yields a COMPLETED status, `_status_to_event` relays it with wire type
`completed` and the orchestrator then emits its own final `completed`
event, so the stream contains two terminal events — the relayed agent
COMPLETED is itself terminal-typed. -/
theorem terminal_event_claim_counterexample :
    terminalCount (events envC1) = 2 ∧
    isTerminal (status_to_event ⟨.completed, "done", some "42", some 1, some 5⟩) = true := by
  decide

/-- Claim C1 amended: every `process_query` stream is nonempty and ends
with a terminal event; on the busy-rejection path it is exactly one
terminal `error` event, and on the lock-acquired paths (success, agent
exception, capture exception, persistence exception) the orchestrator
emits exactly one terminal event, always last — but each agent
COMPLETED status relayed through `_status_to_event` is an additional
event of terminal type `completed`, so the stream holds one more
terminal event per relayed COMPLETED status. -/
theorem process_query_terminal_events (env : Env) :
    lastIsTerminal (events env) = true ∧
    terminalCount (events env) =
      (if (acquire_lock env.store env.sid env.now).1
       then completedStatusCount env.agentStatuses + 1 else 1) := by
  by_cases h : (acquire_lock env.store env.sid env.now).1 = true
  · obtain ⟨e, he, heq⟩ := events_nonbusy env h
    rw [heq, if_pos h]
    have hlast : (startedEvent :: List.map status_to_event env.agentStatuses ++ [e]).getLast?
        = some e := List.getLast?_concat _
    constructor
    · unfold lastIsTerminal
      rw [hlast]
      exact he
    · have h1 := terminalCount_relay env.agentStatuses
      have h2 : isTerminal startedEvent = false := rfl
      unfold terminalCount at h1 ⊢
      simp [List.countP_cons, List.countP_append, h1, h2, he]
  · unfold events process_query preFinallyItems
    rw [if_neg h, if_neg h]
    simp [eventsOf_append, eventsOf_cons_eff, eventsOf_cons_yield, eventsOf_nil,
      lastIsTerminal, terminalCount, List.countP_cons, isTerminal, busyErrorEvent, h]

/- ======================= claim C2 ======================= -/

lemma registerLoop_cons (fails : List (List Char)) (f : FileInfo) (fs : List FileInfo) :
    (registerLoop fails (f :: fs)).1 =
      Item.eff (.register f.name) ::
        (if f.name ∈ fails then [] else (registerLoop fails fs).1) := by
  by_cases h : f.name ∈ fails
  · simp [registerLoop, h]
  · simp [registerLoop, h]

lemma effectsOf_registerLoop_shape (fails : List (List Char)) :
    ∀ l : List FileInfo, ∀ a ∈ effectsOf (registerLoop fails l).1,
      ∃ n, a = Effect.register n := by
  intro l
  induction l with
  | nil => intro a ha; simp [registerLoop, effectsOf_nil] at ha
  | cons f fs ih =>
    intro a ha
    rw [registerLoop_cons, effectsOf_cons_eff] at ha
    by_cases h : f.name ∈ fails
    · rw [if_pos h] at ha
      simp [effectsOf_nil] at ha
      exact ⟨f.name, ha⟩
    · rw [if_neg h] at ha
      rcases List.mem_cons.mp ha with h1 | h2
      · exact ⟨f.name, h1⟩
      · exact ih a h2

lemma effectsOf_capture_shape (before after : List FileInfo) (fails : List (List Char)) :
    ∀ a ∈ effectsOf (capture_new_artifacts before after fails).1,
      a = Effect.listFiles ∨ ∃ n, a = Effect.register n := by
  intro a ha
  simp only [capture_new_artifacts, effectsOf_cons_eff] at ha
  rcases List.mem_cons.mp ha with h1 | h2
  · exact Or.inl h1
  · exact Or.inr (effectsOf_registerLoop_shape fails (diffNew before after) a h2)

lemma effectsOf_body_shape (env : Env) :
    ∀ a ∈ effectsOf (bodyItems env).1,
      a = Effect.listFiles ∨ a = Effect.loadDataframes ∨
      (∃ n, a = Effect.register n) ∨ ∃ r, a = Effect.persist r := by
  intro a ha
  have hcapsh := effectsOf_capture_shape env.beforeFiles env.afterFiles env.failRegister a
  cases hax : env.agentExc with
  | some m =>
    simp [bodyItems, hax, effectsOf_append, effectsOf_cons_eff, effectsOf_cons_yield,
      effectsOf_nil, effectsOf_relay] at ha
    rcases ha with h | h
    · exact Or.inl h
    · exact Or.inr (Or.inl h)
  | none =>
    cases hcap : (capture_new_artifacts env.beforeFiles env.afterFiles env.failRegister).2 with
    | error k =>
      simp only [bodyItems, hax, hcap] at ha
      simp only [effectsOf_append, effectsOf_cons_eff, effectsOf_cons_yield, effectsOf_nil,
        effectsOf_relay, List.mem_append, List.mem_cons] at ha
      rcases ha with ((h | h | h) | h) | h
      · exact Or.inl h
      · exact Or.inr (Or.inl h)
      · simp at h
      · simp at h
      · rcases hcapsh h with h1 | h1
        · exact Or.inl h1
        · exact Or.inr (Or.inr (Or.inl h1))
    | ok arts =>
      cases hpx : env.persistExc with
      | some m =>
        simp only [bodyItems, hax, hcap, hpx] at ha
        simp only [effectsOf_append, effectsOf_cons_eff, effectsOf_cons_yield, effectsOf_nil,
          effectsOf_relay, List.mem_append, List.mem_cons] at ha
        rcases ha with ((h | h | h) | h) | h
        · exact Or.inl h
        · exact Or.inr (Or.inl h)
        · simp at h
        · simp at h
        · rcases hcapsh h with h1 | h1
          · exact Or.inl h1
          · exact Or.inr (Or.inr (Or.inl h1))
      | none =>
        simp only [bodyItems, hax, hcap, hpx] at ha
        simp only [effectsOf_append, effectsOf_cons_eff, effectsOf_cons_yield, effectsOf_nil,
          effectsOf_relay, List.mem_append, List.mem_cons] at ha
        rcases ha with (((h | h | h) | h) | h) | h
        · exact Or.inl h
        · exact Or.inr (Or.inl h)
        · simp at h
        · simp at h
        · rcases hcapsh h with h1 | h1
          · exact Or.inl h1
          · exact Or.inr (Or.inr (Or.inl h1))
        · rcases h with h | h | h
          · exact Or.inr (Or.inr (Or.inr ⟨"user", h⟩))
          · exact Or.inr (Or.inr (Or.inr ⟨"assistant", h⟩))
          · simp at h

lemma releaseCount_preFinally (env : Env) :
    releaseCount (effectsOf (preFinallyItems env)) env.sid = 0 := by
  simp only [releaseCount, List.countP_eq_zero]
  intro a ha
  simp only [decide_eq_true_eq]
  unfold preFinallyItems at ha
  by_cases h : (acquire_lock env.store env.sid env.now).1 = true
  · rw [if_pos h] at ha
    rw [show (Item.eff (Effect.acquireOk env.sid) :: (bodyItems env).1 ++
      (match (bodyItems env).2 with
       | some m => [Item.yieldEv (exceptErrorEvent m)]
       | none => [])) = Item.eff (Effect.acquireOk env.sid) :: ((bodyItems env).1 ++
      (match (bodyItems env).2 with
       | some m => [Item.yieldEv (exceptErrorEvent m)]
       | none => [])) from rfl, effectsOf_cons_eff] at ha
    rcases List.mem_cons.mp ha with h1 | h1
    · simp [h1]
    · rw [effectsOf_append, List.mem_append] at h1
      rcases h1 with h2 | h2
      · rcases effectsOf_body_shape env a h2 with h3 | h3 | ⟨n, h3⟩ | ⟨r, h3⟩ <;> simp [h3]
      · cases hbx : (bodyItems env).2 with
        | some m =>
          rw [hbx] at h2
          simp [effectsOf_cons_yield, effectsOf_nil] at h2
        | none =>
          rw [hbx] at h2
          simp [effectsOf_nil] at h2
  · rw [if_neg h] at ha
    simp only [effectsOf_cons_eff, effectsOf_cons_yield, effectsOf_nil, List.mem_cons] at ha
    rcases ha with h1 | h1
    · simp [h1]
    · simp at h1

lemma truncAt_sublist : ∀ (k : Nat) (l : List Item), (truncAt k l).Sublist l := by
  intro k l
  induction l generalizing k with
  | nil => simp [truncAt]
  | cons it rest ih =>
    cases it with
    | yieldEv e =>
      cases k with
      | zero => simp [truncAt]
      | succ k => exact (ih k).cons₂ _
    | eff f =>
      cases k with
      | zero => simp [truncAt]
      | succ k => exact (ih (k + 1)).cons₂ _

/-- Claim C2: whenever `process_query` acquires the session lock, the
`finally:` block releases it exactly once before the stream ends — it
is the generator's very last step on a full run — and external
cancellation after any positive number of delivered events still
releases exactly once. -/
theorem lock_always_released (env : Env)
    (h : (acquire_lock env.store env.sid env.now).1 = true) :
    releaseCount (effects env) env.sid = 1 ∧
    (process_query env).getLast? = some (Item.eff (.release env.sid)) ∧
    (∀ k, 1 ≤ k →
      releaseCount (effectsOf (process_query_cancelled env k)) env.sid = 1) := by
  have hpre := releaseCount_preFinally env
  simp only [releaseCount] at hpre
  refine ⟨?_, ?_, ?_⟩
  · unfold effects process_query
    rw [if_pos h, effectsOf_append]
    simp [releaseCount, List.countP_append, List.countP_cons, effectsOf_cons_eff,
      effectsOf_nil, hpre]
  · unfold process_query
    rw [if_pos h]
    exact List.getLast?_concat _
  · intro k hk
    unfold process_query_cancelled
    rw [if_neg (by omega : ¬ k = 0), if_pos h, effectsOf_append]
    have htr : releaseCount (effectsOf (truncAt k (preFinallyItems env))) env.sid = 0 := by
      have hsub : (effectsOf (truncAt k (preFinallyItems env))).Sublist
          (effectsOf (preFinallyItems env)) := by
        unfold effectsOf
        exact (truncAt_sublist k (preFinallyItems env)).filterMap _
      have hle := hsub.countP_le (fun f => decide (f = Effect.release env.sid))
      simp only [releaseCount]
      omega
    simp only [releaseCount] at htr
    simp [releaseCount, List.countP_append, List.countP_cons, effectsOf_cons_eff,
      effectsOf_nil, htr]

def envC2 : Env :=
  { store := fun _ => none, sid := "s1", now := 0
    beforeFiles := [], agentStatuses := [], afterFiles := [] }

/-- Witness for C2 on a concrete idle session: a full run and a run
cancelled after two events each release exactly once. -/
theorem lock_always_released_witness :
    releaseCount (effects envC2) "s1" = 1 ∧
    releaseCount (effectsOf (process_query_cancelled envC2 2)) "s1" = 1 := by
  have h := lock_always_released envC2 (by decide)
  exact ⟨h.1, h.2.2 2 (by decide)⟩

/- ======================= claim C5 ======================= -/

/-- Claim C5: a query against a session whose lock is held yields
exactly one event — an immediate terminal `error` — and performs no
other effect: no agent run, no workspace read, no registration, no
persistence, and the failed acquire leaves the lock store untouched, so
the first query is unaffected. -/
theorem busy_rejection (env : Env)
    (h : is_busy env.store env.sid env.now = true) :
    events env = [busyErrorEvent] ∧
    isTerminal busyErrorEvent = true ∧
    effects env = [.acquireFailed env.sid] ∧
    (acquire_lock env.store env.sid env.now).2 = env.store ∧
    (acquire_lock env.store env.sid env.now).1 = false := by
  have h' : held env.store (busyKey env.sid) env.now = true := h
  have hacq : acquire_lock env.store env.sid env.now = (false, env.store) := by
    unfold acquire_lock setIfAbsent
    rw [if_pos h']
  refine ⟨?_, rfl, ?_, by rw [hacq], by rw [hacq]⟩
  · unfold events process_query preFinallyItems
    rw [hacq]
    simp [eventsOf_append, eventsOf_cons_eff, eventsOf_cons_yield, eventsOf_nil]
  · unfold effects process_query preFinallyItems
    rw [hacq]
    simp [effectsOf_append, effectsOf_cons_eff, effectsOf_cons_yield, effectsOf_nil]

def busyStore : Store :=
  fun k => if k = "session:busy:s1" then some 10 else none

def envC5 : Env :=
  { store := busyStore, sid := "s1", now := 0
    beforeFiles := [], agentStatuses := [], afterFiles := [] }

/-- Witness for C5 on a concrete held lock. -/
theorem busy_rejection_witness :
    events envC5 = [busyErrorEvent] ∧
    effects envC5 = [.acquireFailed "s1"] ∧
    (acquire_lock envC5.store "s1" 0).2 = envC5.store := by
  have h := busy_rejection envC5 (by decide)
  exact ⟨h.1, h.2.2.1, h.2.2.2.1⟩

/- ======================= claim C7 ======================= -/

lemma registerTrace_nil : registerTrace [] = [] := rfl

lemma registerTrace_cons_register (n : List Char) (l : List Effect) :
    registerTrace (Effect.register n :: l) = n :: registerTrace l := rfl

lemma registerTrace_append (l1 l2 : List Effect) :
    registerTrace (l1 ++ l2) = registerTrace l1 ++ registerTrace l2 := by
  unfold registerTrace
  exact List.filterMap_append l1 l2 _

lemma effectsOf_register_map (l : List FileInfo) :
    effectsOf (l.map (fun f => Item.eff (Effect.register f.name))) =
      l.map (fun f => Effect.register f.name) := by
  induction l with
  | nil => rfl
  | cons f fs ih =>
    simp only [List.map_cons, effectsOf_cons_eff]
    rw [ih]

lemma registerTrace_register_map (l : List FileInfo) :
    registerTrace (l.map (fun f => Effect.register f.name)) = namesOf l := by
  induction l with
  | nil => rfl
  | cons f fs ih =>
    simp only [List.map_cons, registerTrace_cons_register, namesOf] at ih ⊢
    rw [ih]

def envC7 : Env :=
  { store := fun _ => none, sid := "s1", now := 0
    beforeFiles := []
    agentStatuses := []
    afterFiles := [⟨"sessions/s1/a.png".toList, 1⟩, ⟨"sessions/s1/b.csv".toList, 2⟩]
    failRegister := ["sessions/s1/a.png".toList] }

/-- Claim C7 counterexample: when registering the first of two new
files raises, the second file is never registered and the query ends
with a terminal `error` event, not `completed`. -/
theorem capture_failure_claim_counterexample :
    Effect.register ("sessions/s1/b.csv".toList) ∉ effects envC7 ∧
    (events envC7).getLast? = some (exceptErrorEvent "register failed: sessions/s1/a.png") := by
  decide

/-- Claim C7 amended: a storage/database failure during artifact
registration is not caught inside `_capture_new_artifacts`: it
propagates, so the remaining new files are never registered, no message
is persisted, and the query terminates with a terminal `error` event
(the lock is still released exactly once). -/
theorem capture_failure_propagates (env : Env) (pre post : List FileInfo) (bad : FileInfo)
    (hacq : (acquire_lock env.store env.sid env.now).1 = true)
    (hagent : env.agentExc = none)
    (hdiff : diffNew env.beforeFiles env.afterFiles = pre ++ bad :: post)
    (hpre : ∀ f ∈ pre, f.name ∉ env.failRegister)
    (hbad : bad.name ∈ env.failRegister) :
    (events env).getLast? =
      some (exceptErrorEvent ("register failed: " ++ String.mk bad.name)) ∧
    registerTrace (effects env) = namesOf pre ++ [bad.name] ∧
    (∀ r : String, Effect.persist r ∉ effects env) ∧
    releaseCount (effects env) env.sid = 1 := by
  have hrl := registerLoop_err env.failRegister bad post hbad pre hpre
  have hcap2 : (capture_new_artifacts env.beforeFiles env.afterFiles env.failRegister).2 =
      .error bad.name := by
    simp only [capture_new_artifacts]
    rw [hdiff, hrl]
  have hcap1 : (capture_new_artifacts env.beforeFiles env.afterFiles env.failRegister).1 =
      Item.eff .listFiles ::
        (pre.map (fun f => Item.eff (Effect.register f.name)) ++
          [Item.eff (Effect.register bad.name)]) := by
    simp only [capture_new_artifacts]
    rw [hdiff, hrl]
  have heff : effects env =
      Effect.acquireOk env.sid :: Effect.listFiles :: Effect.loadDataframes ::
        Effect.listFiles ::
          (pre.map (fun f => Effect.register f.name) ++
            ([Effect.register bad.name] ++ [Effect.release env.sid])) := by
    unfold effects process_query preFinallyItems
    rw [if_pos hacq, if_pos hacq]
    simp [bodyItems, hagent, hcap2, hcap1, effectsOf_append, effectsOf_cons_eff,
      effectsOf_cons_yield, effectsOf_nil, effectsOf_relay, effectsOf_register_map]
  refine ⟨?_, ?_, ?_, ?_⟩
  · have hev : events env = (startedEvent :: env.agentStatuses.map status_to_event) ++
        [exceptErrorEvent ("register failed: " ++ String.mk bad.name)] := by
      unfold events process_query preFinallyItems
      rw [if_pos hacq, if_pos hacq]
      simp [bodyItems, hagent, hcap2, eventsOf_append, eventsOf_cons_eff,
        eventsOf_cons_yield, eventsOf_nil, eventsOf_relay, eventsOf_capture]
    rw [hev, List.getLast?_concat]
  · rw [heff]
    rw [show ∀ l : List Effect, registerTrace (Effect.acquireOk env.sid :: l) =
      registerTrace l from fun _ => rfl]
    rw [show ∀ l : List Effect, registerTrace (Effect.listFiles :: l) =
      registerTrace l from fun _ => rfl]
    rw [show ∀ l : List Effect, registerTrace (Effect.loadDataframes :: l) =
      registerTrace l from fun _ => rfl]
    rw [show ∀ l : List Effect, registerTrace (Effect.listFiles :: l) =
      registerTrace l from fun _ => rfl]
    rw [registerTrace_append, registerTrace_register_map, registerTrace_append]
    rw [registerTrace_cons_register, registerTrace_nil]
    rw [show registerTrace [Effect.release env.sid] = [] from rfl]
    simp
  · intro r
    rw [heff]
    simp [List.mem_append, List.mem_cons, List.mem_map]
  · rw [show releaseCount (effects env) env.sid =
      releaseCount (effectsOf (preFinallyItems env) ++ [Effect.release env.sid]) env.sid by
        unfold effects process_query
        rw [if_pos hacq, effectsOf_append]
        rfl]
    have hpf := releaseCount_preFinally env
    simp only [releaseCount, List.countP_append, List.countP_cons, List.countP_nil] at hpf ⊢
    simp [hpf]

/-- Witness for C7 (amended) at the concrete failing environment. -/
theorem capture_failure_propagates_witness :
    registerTrace (effects envC7) = ["sessions/s1/a.png".toList] ∧
    releaseCount (effects envC7) "s1" = 1 := by
  have h := capture_failure_propagates envC7 [] [⟨"sessions/s1/b.csv".toList, 2⟩]
    ⟨"sessions/s1/a.png".toList, 1⟩ (by decide) rfl (by decide) (by decide) (by decide)
  exact ⟨h.2.1, h.2.2.2⟩

/- =================================================================
   Consuming side: `streamQuery` in src/frontend/src/api/query.ts.
   The reader loop holds a string buffer, appends each chunk, splits on
   newlines keeping the final (possibly incomplete) piece as the new
   buffer, and parses each complete `data: `-prefixed line as JSON,
   skipping parse failures.  `JSON.parse` is abstracted by a `parse`
   oracle returning `Option α`.
   ================================================================= -/

/-- `buffer.split('\n')` followed by `buffer = lines.pop() || ''`:
the complete lines and the retained remainder. -/
def splitLines : List Char → List (List Char) × List Char
  | [] => ([], [])
  | c :: rest =>
    let p := splitLines rest
    if c = '\n' then (([] : List Char) :: p.1, p.2)
    else
      match p.1 with
      | [] => ([], c :: p.2)
      | l :: ls => ((c :: l) :: ls, p.2)

def isWs (c : Char) : Bool :=
  c = ' ' || c = '\t' || c = '\n' || c = '\r'

/-- JavaScript `String.prototype.trim` on the characters that occur in
SSE frames. -/
def jsTrim (s : List Char) : List Char :=
  ((s.dropWhile isWs).reverse.dropWhile isWs).reverse

def dataMarker : List Char := "data: ".toList

/-- The per-line handling of `streamQuery`: only `data: `-prefixed
lines with a nonempty trimmed payload that `JSON.parse` accepts give an
event; everything else is skipped. -/
def parseLine {α : Type} (parse : List Char → Option α) (line : List Char) : Option α :=
  if dataMarker.isPrefixOf line then
    let payload := jsTrim (line.drop 6)
    if payload = [] then none else parse payload
  else none

def lineEvents {α : Type} (parse : List Char → Option α)
    (lines : List (List Char)) : List α :=
  lines.filterMap (parseLine parse)

/-- The `while (true)` reader loop of `streamQuery`, one recursive step
per chunk returned by `reader.read()`; the final buffer is dropped when
the stream is done, as in the source. -/
def consume {α : Type} (parse : List Char → Option α) :
    List Char → List (List Char) → List α
  | _, [] => []
  | buf, c :: cs =>
    let p := splitLines (buf ++ c)
    lineEvents parse p.1 ++ consume parse p.2 cs

/-- `streamQuery`, starting from the empty buffer. -/
def streamQuery {α : Type} (parse : List Char → Option α)
    (chunks : List (List Char)) : List α :=
  consume parse [] chunks

def joinLines : List (List Char) → List Char
  | [] => []
  | l :: ls => l ++ '\n' :: joinLines ls

def concatChunks : List (List Char) → List Char
  | [] => []
  | c :: cs => c ++ concatChunks cs

/- ---------- splitLines lemmas ---------- -/

lemma splitLines_no_nl : ∀ s : List Char, '\n' ∉ s → splitLines s = ([], s) := by
  intro s
  induction s with
  | nil => intro _; rfl
  | cons c rest ih =>
    intro h
    have hc : ¬ c = '\n' := fun he => h (he ▸ List.mem_cons_self c rest)
    have hr : '\n' ∉ rest := fun hm => h (List.mem_cons_of_mem c hm)
    simp only [splitLines, ih hr, if_neg hc]

lemma splitLines_cons_nl (rest : List Char) :
    splitLines ('\n' :: rest) = ([] :: (splitLines rest).1, (splitLines rest).2) := by
  simp [splitLines]

lemma splitLines_cons_nil (c : Char) (rest : List Char) (hc : ¬ c = '\n')
    (hls : (splitLines rest).1 = []) :
    splitLines (c :: rest) = ([], c :: (splitLines rest).2) := by
  simp only [splitLines, if_neg hc, hls]

lemma splitLines_cons_cons (c : Char) (rest : List Char) (l : List Char)
    (ls : List (List Char)) (hc : ¬ c = '\n') (hls : (splitLines rest).1 = l :: ls) :
    splitLines (c :: rest) = ((c :: l) :: ls, (splitLines rest).2) := by
  simp only [splitLines, if_neg hc, hls]

lemma splitLines_rem_no_nl : ∀ s : List Char, '\n' ∉ (splitLines s).2 := by
  intro s
  induction s with
  | nil => simp [splitLines]
  | cons c rest ih =>
    by_cases hc : c = '\n'
    · subst hc
      rw [splitLines_cons_nl]
      exact ih
    · cases hls : (splitLines rest).1 with
      | nil =>
        rw [splitLines_cons_nil c rest hc hls]
        show '\n' ∉ c :: (splitLines rest).2
        intro hm
        rcases List.mem_cons.mp hm with h1 | h1
        · exact hc h1.symm
        · exact ih h1
      | cons l ls =>
        rw [splitLines_cons_cons c rest l ls hc hls]
        exact ih

lemma splitLines_append : ∀ s t : List Char,
    splitLines (s ++ t) =
      ((splitLines s).1 ++ (splitLines ((splitLines s).2 ++ t)).1,
       (splitLines ((splitLines s).2 ++ t)).2) := by
  intro s
  induction s with
  | nil => intro t; simp [splitLines]
  | cons c rest ih =>
    intro t
    have h1b : (splitLines (rest ++ t)).2 =
        (splitLines ((splitLines rest).2 ++ t)).2 := by
      rw [ih t]
    by_cases hc : c = '\n'
    · subst hc
      rw [List.cons_append, splitLines_cons_nl, splitLines_cons_nl, ih t]
      simp
    · cases hls : (splitLines rest).1 with
      | nil =>
        have h1a : (splitLines (rest ++ t)).1 =
            (splitLines ((splitLines rest).2 ++ t)).1 := by
          rw [ih t, hls]
          simp
        rw [List.cons_append, splitLines_cons_nil c rest hc hls]
        cases hy : (splitLines ((splitLines rest).2 ++ t)).1 with
        | nil =>
          rw [splitLines_cons_nil c (rest ++ t) hc (h1a.trans hy)]
          show (([] : List (List Char)), c :: (splitLines (rest ++ t)).2) =
            ([] ++ (splitLines ((c :: (splitLines rest).2) ++ t)).1,
             (splitLines ((c :: (splitLines rest).2) ++ t)).2)
          rw [List.cons_append, splitLines_cons_nil c ((splitLines rest).2 ++ t) hc hy,
            h1b]
          simp
        | cons m ms =>
          rw [splitLines_cons_cons c (rest ++ t) m ms hc (h1a.trans hy)]
          show ((c :: m) :: ms, (splitLines (rest ++ t)).2) =
            ([] ++ (splitLines ((c :: (splitLines rest).2) ++ t)).1,
             (splitLines ((c :: (splitLines rest).2) ++ t)).2)
          rw [List.cons_append,
            splitLines_cons_cons c ((splitLines rest).2 ++ t) m ms hc hy, h1b]
          simp
      | cons l ls =>
        have h1a : (splitLines (rest ++ t)).1 =
            l :: (ls ++ (splitLines ((splitLines rest).2 ++ t)).1) := by
          rw [ih t, hls]
          simp
        rw [List.cons_append,
          splitLines_cons_cons c (rest ++ t) l
            (ls ++ (splitLines ((splitLines rest).2 ++ t)).1) hc h1a,
          splitLines_cons_cons c rest l ls hc hls, h1b]
        simp

lemma splitLines_line_append (l t : List Char) (h : '\n' ∉ l) :
    splitLines (l ++ '\n' :: t) = (l :: (splitLines t).1, (splitLines t).2) := by
  induction l with
  | nil => simp [splitLines_cons_nl]
  | cons c cs ih =>
    have hc : ¬ c = '\n' := fun he => h (he ▸ List.mem_cons_self c cs)
    have hcs : '\n' ∉ cs := fun hm => h (List.mem_cons_of_mem c hm)
    have h1 : (splitLines (cs ++ '\n' :: t)).1 = cs :: (splitLines t).1 := by
      rw [ih hcs]
    have h2 : (splitLines (cs ++ '\n' :: t)).2 = (splitLines t).2 := by
      rw [ih hcs]
    rw [List.cons_append,
      splitLines_cons_cons c (cs ++ '\n' :: t) cs ((splitLines t).1) hc h1, h2]

lemma splitLines_joinLines : ∀ ls : List (List Char), (∀ l ∈ ls, '\n' ∉ l) →
    splitLines (joinLines ls) = (ls, []) := by
  intro ls
  induction ls with
  | nil => intro _; rfl
  | cons l ls ih =>
    intro h
    simp only [joinLines]
    rw [splitLines_line_append l _ (h l (by simp)), ih (fun x hx => h x (by simp [hx]))]

/- ---------- the reader loop ---------- -/

lemma consume_eq {α : Type} (parse : List Char → Option α) :
    ∀ (cs : List (List Char)) (buf : List Char), '\n' ∉ buf →
      consume parse buf cs = lineEvents parse (splitLines (buf ++ concatChunks cs)).1 := by
  intro cs
  induction cs with
  | nil =>
    intro buf h
    simp only [consume, concatChunks, List.append_nil, splitLines_no_nl buf h]
    rfl
  | cons c cs ih =>
    intro buf h
    simp only [consume, concatChunks]
    rw [ih _ (splitLines_rem_no_nl (buf ++ c)), ← List.append_assoc,
      splitLines_append (buf ++ c) (concatChunks cs)]
    simp only [lineEvents, List.filterMap_append]

/- ======================= claim C10 ======================= -/

/-- Claim C10: `streamQuery` is chunking-invariant — for a byte stream
ending in a newline, any partition into reader chunks yields the same
event sequence as delivering the whole stream in one read: a frame
split across reads is buffered and parsed exactly once. -/
theorem streamQuery_chunk_invariant {α : Type} (parse : List Char → Option α)
    (cs1 cs2 : List (List Char))
    (hsame : concatChunks cs1 = concatChunks cs2)
    (hnl : (concatChunks cs1).getLast? = some '\n') :
    streamQuery parse cs1 = streamQuery parse [concatChunks cs1] ∧
    streamQuery parse cs1 = streamQuery parse cs2 := by
  have e1 := consume_eq parse cs1 [] (by simp)
  have e2 := consume_eq parse cs2 [] (by simp)
  have e3 := consume_eq parse [concatChunks cs1] [] (by simp)
  constructor
  · unfold streamQuery
    rw [e1, e3]
    simp [concatChunks]
  · unfold streamQuery
    rw [e1, e2, hsame]

def c10parse : List Char → Option Nat :=
  fun s => if s = "1".toList then some 1 else if s = "2".toList then some 2 else none

/-- Witness for C10: a frame split across two reads produces the same
two events as the unsplit stream. -/
theorem streamQuery_chunk_invariant_witness :
    streamQuery c10parse ["data: 1\nda".toList, "ta: 2\n".toList] =
      streamQuery c10parse ["data: 1\ndata: 2\n".toList] ∧
    streamQuery c10parse ["data: 1\nda".toList, "ta: 2\n".toList] = [1, 2] := by
  refine ⟨?_, by decide⟩
  exact (streamQuery_chunk_invariant c10parse
    ["data: 1\nda".toList, "ta: 2\n".toList]
    ["data: 1\ndata: 2\n".toList] (by decide) (by decide)).2

/- ======================= claim C9 ======================= -/

/-- Claim C9: a malformed frame — a complete line not starting with
`data: `, or whose payload `JSON.parse` rejects — is skipped without
aborting: the events of a stream containing the malformed line are
exactly those of the surrounding well-formed lines, so every later
well-formed frame is still parsed and yielded. -/
theorem streamQuery_skips_malformed {α : Type} (parse : List Char → Option α)
    (l1 l2 : List (List Char)) (bad : List Char)
    (hno : ∀ l ∈ l1 ++ bad :: l2, '\n' ∉ l)
    (hbad : dataMarker.isPrefixOf bad = false ∨ parse (jsTrim (bad.drop 6)) = none) :
    streamQuery parse [joinLines (l1 ++ bad :: l2)] =
      lineEvents parse l1 ++ lineEvents parse l2 ∧
    lineEvents parse (l1 ++ bad :: l2) = lineEvents parse l1 ++ lineEvents parse l2 := by
  have hbadnone : parseLine parse bad = none := by
    unfold parseLine
    rcases hbad with h | h
    · rw [h]
      simp
    · by_cases hp : dataMarker.isPrefixOf bad
      · rw [if_pos hp]
        by_cases hz : jsTrim (bad.drop 6) = []
        · simp [hz]
        · simp [hz, h]
      · rw [if_neg hp]
  have hmain : lineEvents parse (l1 ++ bad :: l2) =
      lineEvents parse l1 ++ lineEvents parse l2 := by
    unfold lineEvents
    rw [List.filterMap_append]
    simp [List.filterMap_cons, hbadnone]
  refine ⟨?_, hmain⟩
  have e1 := consume_eq parse [joinLines (l1 ++ bad :: l2)] [] (by simp)
  unfold streamQuery
  rw [e1]
  simp only [concatChunks, List.append_nil, List.nil_append]
  rw [splitLines_joinLines _ hno]
  exact hmain

def c9parse : List Char → Option Nat :=
  fun s => if s = "7".toList then some 7 else if s = "9".toList then some 9 else none

/-- Witness for C9: a malformed middle frame is dropped while the
well-formed frames before and after it are both yielded. -/
theorem streamQuery_skips_malformed_witness :
    streamQuery c9parse [joinLines ["data: 7".toList, "oops".toList, "data: 9".toList]] =
      [7, 9] := by
  have h := streamQuery_skips_malformed c9parse
    ["data: 7".toList] ["data: 9".toList] ("oops".toList)
    (by decide) (Or.inl (by decide))
  rw [show ("data: 7".toList :: "oops".toList :: ["data: 9".toList] :
    List (List Char)) = ["data: 7".toList] ++ "oops".toList :: ["data: 9".toList] from rfl]
  rw [h.1]
  decide

/-- Witness for C3 on a concrete empty store at times 0 and 1. -/
theorem lock_service_contract_witness :
    (acquire_lock (fun _ => none) "s1" 0).1 = true ∧
    (acquire_lock (acquire_lock (fun _ => none) "s1" 0).2 "s1" 1).1 = false ∧
    (acquire_lock (release_lock (acquire_lock (fun _ => none) "s1" 0).2 "s1") "s1" 1).1 = true := by
  have h := lock_service_contract (fun _ => none) "s1" 0 1 (by decide) (by decide)
  exact ⟨h.2.1, h.2.2.1, h.2.2.2.1⟩

end CodeAgent
